import Mathlib

/-!
Verification of the GGRoid droid-voice audio pipeline
(`src/ggroid/src/components/GGRoidMessenger.tsx`, with near-duplicate copies in
`src/unnamed/part_000` and `src/unnamed/part_008`).

The numeric pipeline is embedded shallowly over `ℚ`.  The JavaScript library
functions `Math.sin` and `Math.PI` are abstracted into a `Trig` parameter:
every property proved here holds for an arbitrary interpretation of the sine
function, which in particular covers the concrete IEEE-754 `Math.sin`.
Buffers (`Float32Array`) become `List ℚ`; the imperative per-sample loops
become `List.mapIdx`; the in-place fade loop of `generateR2D2Personality`
becomes a fold of `List.set` updates mirroring the mutation order of the code.
-/

/-- Abstraction of the JavaScript math library used by the pipeline:
`sin` stands for `Math.sin` and `pi` for `Math.PI`. -/
structure Trig where
  sin : ℚ → ℚ
  pi : ℚ

/-- The effect identifiers offered by the UI (`settings.effect`). -/
inductive EffectKind where
  | normal
  | blatt
  | trill
  | whistle
  | scream
  | happy
  | sad
  | question
  | random
  deriving DecidableEq, Repr

/-- The `settings` object passed into the pipeline (volume, dutyCycle,
lfoRate, exaggeration, effect, addPersonality). -/
structure EffectSettings where
  volume : ℚ
  dutyCycle : ℚ
  lfoRate : ℚ
  exaggeration : ℚ
  effect : EffectKind
  addPersonality : Bool

/-- The effect-specific multiplier applied to the base LFO, from the
`if (settings.effect === ...)` chain of `applyDroidEffects`
(GGRoidMessenger.tsx lines 353-393).  The kinds `normal` and `random` fall
through the whole chain, leaving the LFO unchanged (multiplier 1).
`bufLen` is `buffer.length`, used only by the `question` effect. -/
def effectLfo (T : Trig) (s : EffectSettings) (bufLen : ℕ) (sampleRate t : ℚ) : ℚ :=
  match s.effect with
  | .blatt =>
      0.8 + 0.5 * s.exaggeration * (if T.sin (2 * T.pi * 30 * t) > 0 then 1 else -0.5)
  | .trill =>
      1.0 + 0.5 * s.exaggeration * T.sin (2 * T.pi * 20 * t)
  | .scream =>
      let chaosLfo := (0.8 + 0.2 * T.sin (2 * T.pi * 13 * t))
        * (0.9 + 0.1 * T.sin (2 * T.pi * 27 * t))
        * (0.95 + 0.05 * T.sin (2 * T.pi * 41 * t))
      1.0 + (chaosLfo - 1.0) * s.exaggeration
  | .whistle =>
      1.0 + 0.3 * s.exaggeration * T.sin (2 * T.pi * 8 * t)
  | .happy =>
      1.0 + 0.3 * s.exaggeration * T.sin (2 * T.pi * 6 * t)
  | .sad =>
      1.0 + 0.4 * s.exaggeration * T.sin (2 * T.pi * 3 * t)
  | .question =>
      1.0 + 0.3 * s.exaggeration
        * T.sin (2 * T.pi * (4 + 4 * (t / ((bufLen : ℚ) / sampleRate))) * t)
  | .normal => 1
  | .random => 1

/-- One iteration of the per-sample loop of `applyDroidEffects`
(GGRoidMessenger.tsx lines 345-409): base LFO, effect multiplier,
duty-cycle waveshaping, and the final `signal * lfo`. -/
def droidSampleStep (T : Trig) (sampleRate : ℚ) (bufLen : ℕ) (s : EffectSettings)
    (i : ℕ) (x : ℚ) : ℚ :=
  let t : ℚ := (i : ℚ) / sampleRate
  let lfo := (0.8 + 0.2 * (0.5 + 0.5 * T.sin (2 * T.pi * s.lfoRate * t)))
    * effectLfo T s bufLen sampleRate t
  let duty := s.dutyCycle
  let signal := if x > 0 then (if x > duty then 1.0 else x / duty)
    else (if x < -duty then -1.0 else x / duty)
  signal * lfo

/-- The full `applyDroidEffects` (GGRoidMessenger.tsx lines 338-428):
per-sample processing, then the manual max-abs scan, the near-zero guard
`if (maxAmp <= 0.0001) maxAmp = 1.0`, and normalization times volume. -/
def applyDroidEffects (T : Trig) (sampleRate : ℚ) (buffer : List ℚ)
    (s : EffectSettings) : List ℚ :=
  let processedBuffer := buffer.mapIdx (fun i x =>
    droidSampleStep T sampleRate buffer.length s i x)
  let maxAmp := processedBuffer.foldl (fun m x => if |x| > m then |x| else m) 0
  let maxAmp2 := if maxAmp ≤ 0.0001 then 1.0 else maxAmp
  processedBuffer.map (fun x => x / maxAmp2 * s.volume)

/-- Sample count `Math.floor(duration * sampleRate)` used by
`generateR2D2Personality` (GGRoidMessenger.tsx line 435). -/
def numSamplesOf (duration sampleRate : ℚ) : ℕ :=
  (⌊duration * sampleRate⌋).toNat

/-- Fade length `Math.floor(0.05 * numSamples)` of `generateR2D2Personality`
(GGRoidMessenger.tsx line 457). -/
def fadeLenOf (numSamples : ℕ) : ℕ :=
  (⌊(0.05 : ℚ) * (numSamples : ℚ)⌋).toNat

/-- One sample of the pre-fade chirp of `generateR2D2Personality`
(GGRoidMessenger.tsx lines 443-454): frequency modulation, the
non-integrated phase `2π·instantFreq·t`, and the threshold comparison. -/
def rawR2D2Sample (T : Trig) (isIntro : Bool) (sampleRate : ℚ) (i : ℕ) : ℚ :=
  let t : ℚ := (i : ℚ) / sampleRate
  let baseFreq : ℚ := if isIntro then 800 else 1200
  let modDepth : ℚ := if isIntro then 400 else 300
  let modRate : ℚ := if isIntro then 10 else 5
  let instantFreq := baseFreq + modDepth * T.sin (2 * T.pi * modRate * t)
  let phase := 2 * T.pi * instantFreq * t
  if T.sin phase > (if isIntro then (-0.2 : ℚ) else 0.2) then 1 else -1

/-- One iteration of the fade loop of `generateR2D2Personality`
(GGRoidMessenger.tsx lines 459-460): `buffer[i] *= i / fadeLen` followed by
`buffer[numSamples - 1 - i] *= i / fadeLen`, as in-place `List.set` updates
in the order the code performs them. -/
def fadeStep (numSamples fadeLen : ℕ) (b : List ℚ) (i : ℕ) : List ℚ :=
  let b1 := b.set i (b.getD i 0 * ((i : ℚ) / (fadeLen : ℚ)))
  b1.set (numSamples - 1 - i)
    (b1.getD (numSamples - 1 - i) 0 * ((i : ℚ) / (fadeLen : ℚ)))

/-- The in-place fade loop of `generateR2D2Personality`
(GGRoidMessenger.tsx lines 458-461): `for (let i = 0; i < fadeLen; i++)`
applying `fadeStep`. -/
def applyFade (numSamples fadeLen : ℕ) (buffer : List ℚ) : List ℚ :=
  (List.range fadeLen).foldl (fadeStep numSamples fadeLen) buffer

/-- The full `generateR2D2Personality` (GGRoidMessenger.tsx lines 431-464):
generation loop over `numSamples` indices, then the fade loop. -/
def generateR2D2Personality (T : Trig) (isIntro : Bool) (duration sampleRate : ℚ) :
    List ℚ :=
  let numSamples := numSamplesOf duration sampleRate
  let buffer := (List.range numSamples).map (rawR2D2Sample T isIntro sampleRate)
  applyFade numSamples (fadeLenOf numSamples) buffer

/-- Pause sample count `Math.floor(pauseDuration * sampleRate)` with
`pauseDuration = 0.1` (GGRoidMessenger.tsx lines 475, 480). -/
def pauseSamplesOf (sampleRate : ℚ) : ℕ :=
  (⌊(0.1 : ℚ) * sampleRate⌋).toNat

/-- The `addDroidPersonality` mixer (GGRoidMessenger.tsx lines 467-504).
The code allocates a zero `Float32Array` of `totalLength` and copies the
volume-scaled intro at offset 0, the payload at offset
`introBuffer.length + pauseSamples`, and the volume-scaled outro at
`offset + buffer.length + pauseSamples`; the written regions tile the
whole zero-initialized array exactly, so the result is this concatenation. -/
def addDroidPersonality (T : Trig) (sampleRate : ℚ) (buffer : List ℚ)
    (s : EffectSettings) : List ℚ :=
  if !s.addPersonality then buffer else
    let introBuffer := generateR2D2Personality T true 0.5 sampleRate
    let outroBuffer := generateR2D2Personality T false 0.3 sampleRate
    let pauseSamples := pauseSamplesOf sampleRate
    introBuffer.map (fun x => x * s.volume)
      ++ List.replicate pauseSamples 0
      ++ buffer
      ++ List.replicate pauseSamples 0
      ++ outroBuffer.map (fun x => x * s.volume)

/-- Little-endian bytes of a 16-bit value, as written by
`view.setUint16(off, v, true)`. -/
def bytesU16LE (v : ℕ) : List ℕ :=
  [v % 256, v / 256 % 256]

/-- Little-endian bytes of a 32-bit value, as written by
`view.setUint32(off, v, true)`. -/
def bytesU32LE (v : ℕ) : List ℕ :=
  [v % 256, v / 256 % 256, v / 65536 % 256, v / 16777216 % 256]

/-- The `writeString` helper (GGRoidMessenger.tsx lines 1664-1668):
one byte per character, `charCodeAt` values. -/
def writeString (str : String) : List ℕ :=
  str.data.map Char.toNat

/-- The `createWavHeader` function (GGRoidMessenger.tsx lines 1634-1661).
The `DataView` writes land at offsets 0,4,8,12,16,20,22,24,28,32,34,36,40 and
tile the 44-byte buffer exactly, so the header is this concatenation.
Note the ChunkSize at offset 4 is `32 + dataLength * 2`, as in the source. -/
def createWavHeader (dataLength numChannels sampleRate bitsPerSample : ℕ) :
    List ℕ :=
  let byteRate := sampleRate * numChannels * bitsPerSample / 8
  let blockAlign := numChannels * bitsPerSample / 8
  writeString "RIFF"
    ++ bytesU32LE (32 + dataLength * 2)
    ++ writeString "WAVE"
    ++ writeString "fmt "
    ++ bytesU32LE 16
    ++ bytesU16LE 1
    ++ bytesU16LE numChannels
    ++ bytesU32LE sampleRate
    ++ bytesU32LE byteRate
    ++ bytesU16LE blockAlign
    ++ bytesU16LE bitsPerSample
    ++ writeString "data"
    ++ bytesU32LE (dataLength * 2)

/-- Truncation toward zero, the rounding JavaScript applies when a float is
stored into an `Int16Array`. -/
def truncTowardZero (q : ℚ) : ℤ :=
  if 0 ≤ q then ⌊q⌋ else ⌈q⌉

/-- The wrap-around of ECMAScript ToInt16 applied to an already-truncated
integer: reduce modulo 2^16 into the signed range [-32768, 32767]. -/
def toInt16 (z : ℤ) : ℤ :=
  (z + 32768) % 65536 - 32768

/-- The int16 quantization of one float sample in `saveAsWav`
(GGRoidMessenger.tsx line 1608):
`pcmData[i] = Math.min(1, Math.max(-1, processedWaveform[i])) * 32767`,
with the `Int16Array` store semantics (truncate toward zero, wrap mod 2^16). -/
def quantizeSample (x : ℚ) : ℤ :=
  toInt16 (truncTowardZero (min 1 (max (-1) x) * 32767))

/-- The PCM conversion loop of `saveAsWav` (GGRoidMessenger.tsx lines 1605-1609). -/
def saveAsWavPcm (processedWaveform : List ℚ) : List ℤ :=
  processedWaveform.map quantizeSample

/-- Little-endian decode of two consecutive header bytes. -/
def leU16At (bytes : List ℕ) (off : ℕ) : ℕ :=
  bytes.getD off 0 + 256 * bytes.getD (off + 1) 0

/-- Little-endian decode of four consecutive header bytes. -/
def leU32At (bytes : List ℕ) (off : ℕ) : ℕ :=
  bytes.getD off 0 + 256 * bytes.getD (off + 1) 0
    + 65536 * bytes.getD (off + 2) 0 + 16777216 * bytes.getD (off + 3) 0

/-- Modelled from the spec: the 44-byte header table of section 4.4 of the
specification, rendered field by field with the formulas given there
(ChunkSize `32 + N*2`, byte rate `sampleRate·channels·bitsPerSample/8`,
block align `channels·bitsPerSample/8`, bits per sample 16, channels 1,
data chunk size `N*2`).  Used only to compare `createWavHeader` against the
specified layout. -/
def specWavHeaderTable (N sampleRate : ℕ) : List ℕ :=
  writeString "RIFF"
    ++ bytesU32LE (32 + N * 2)
    ++ writeString "WAVE"
    ++ writeString "fmt "
    ++ bytesU32LE 16
    ++ bytesU16LE 1
    ++ bytesU16LE 1
    ++ bytesU32LE sampleRate
    ++ bytesU32LE (sampleRate * 1 * 16 / 8)
    ++ bytesU16LE (1 * 16 / 8)
    ++ bytesU16LE 16
    ++ writeString "data"
    ++ bytesU32LE (N * 2)

/-- A concrete interpretation of the trig oracle, used for witnesses and
counterexamples: any fixed function works, since the proved properties hold
for every interpretation of `Math.sin`. -/
def trigZero : Trig :=
  { sin := fun _ => 0, pi := 3 }

/-- Concrete settings with `dutyCycle = 0`, used to exhibit the absence of
configuration validation. -/
def zeroDutySettings : EffectSettings :=
  { volume := 1/2, dutyCycle := 0, lfoRate := 12, exaggeration := 1,
    effect := .normal, addPersonality := false }

/-- Concrete well-formed settings used by witnesses. -/
def demoSettings : EffectSettings :=
  { volume := 1/2, dutyCycle := 2/5, lfoRate := 12, exaggeration := 1,
    effect := .trill, addPersonality := true }

/-! ### Basic list access lemmas -/

theorem getD_set_self_q (l : List ℚ) (i : ℕ) (h : i < l.length) (a : ℚ) :
    (l.set i a).getD i 0 = a := by
  simp [List.getD_eq_getElem?_getD, List.getElem?_set_self h]

theorem getD_set_ne_q (l : List ℚ) {i j : ℕ} (h : i ≠ j) (a : ℚ) :
    (l.set i a).getD j 0 = l.getD j 0 := by
  simp [List.getD_eq_getElem?_getD, List.getElem?_set_ne h]

theorem getD_append_lt (l1 l2 : List ℚ) (i : ℕ) (h : i < l1.length) :
    (l1 ++ l2).getD i 0 = l1.getD i 0 := by
  simp [List.getD_eq_getElem?_getD, List.getElem?_append_left h]

theorem getD_append_ge (l1 l2 : List ℚ) (i : ℕ) (h : l1.length ≤ i) :
    (l1 ++ l2).getD i 0 = l2.getD (i - l1.length) 0 := by
  simp [List.getD_eq_getElem?_getD, List.getElem?_append_right h]

theorem getD_replicate_zero (n j : ℕ) : (List.replicate n (0 : ℚ)).getD j 0 = 0 := by
  simp [List.getD_eq_getElem?_getD, List.getElem?_replicate]
  split <;> simp

theorem getD_map_mul (l : List ℚ) (c : ℚ) (k : ℕ) (h : k < l.length) :
    (l.map (fun x => x * c)).getD k 0 = l.getD k 0 * c := by
  have hk : l[k]? = some (l[k]) := List.getElem?_eq_getElem h
  simp [List.getD_eq_getElem?_getD, List.getElem?_map, hk]

theorem getD_range_map (f : ℕ → ℚ) (n j : ℕ) (h : j < n) :
    ((List.range n).map f).getD j 0 = f j := by
  have hj : (List.range n)[j]? = some j := by
    simp [List.getElem?_range, h]
  simp [List.getD_eq_getElem?_getD, List.getElem?_map, hj]

/-! ### Length lemmas for the fade loop and the generator -/

theorem fadeStep_length (n fl : ℕ) (b : List ℚ) (i : ℕ) :
    (fadeStep n fl b i).length = b.length := by
  simp [fadeStep]

theorem foldl_fadeStep_length (n fl : ℕ) (is : List ℕ) :
    ∀ b : List ℚ, (is.foldl (fadeStep n fl) b).length = b.length := by
  induction is with
  | nil => intro b; rfl
  | cons i is ih =>
      intro b
      rw [List.foldl_cons, ih, fadeStep_length]

theorem applyFade_length (n fl : ℕ) (b : List ℚ) :
    (applyFade n fl b).length = b.length :=
  foldl_fadeStep_length n fl (List.range fl) b

theorem generateR2D2Personality_length (T : Trig) (isIntro : Bool)
    (duration sampleRate : ℚ) :
    (generateR2D2Personality T isIntro duration sampleRate).length =
      numSamplesOf duration sampleRate := by
  simp [generateR2D2Personality, applyFade_length]

/-! ### Closed form of the fade loop -/

theorem foldl_fadeStep_getD (n fl : ℕ) (h2 : 2 * fl ≤ n) :
    ∀ k : ℕ, k ≤ fl → ∀ buf : List ℚ, buf.length = n → ∀ j : ℕ, j < n →
      ((List.range k).foldl (fadeStep n fl) buf).getD j 0 =
        buf.getD j 0 * (if j < k then (j : ℚ) / (fl : ℚ) else 1)
          * (if n - 1 - j < k then ((n - 1 - j : ℕ) : ℚ) / (fl : ℚ) else 1) := by
  intro k
  induction k with
  | zero =>
      intro _ buf _ j _
      simp
  | succ k ih =>
      intro hk buf hlen j hj
      have hk' : k ≤ fl := Nat.le_of_succ_le hk
      have hkfl : k < fl := hk
      have hkn : k < n - 1 - k := by omega
      have hkne : k ≠ n - 1 - k := by omega
      have hBlen : ((List.range k).foldl (fadeStep n fl) buf).length = n := by
        rw [foldl_fadeStep_length]; exact hlen
      set B := (List.range k).foldl (fadeStep n fl) buf with hB
      rw [List.range_succ, List.foldl_append, List.foldl_cons, List.foldl_nil]
      rw [show (fadeStep n fl B k) =
        (B.set k (B.getD k 0 * ((k : ℚ) / (fl : ℚ)))).set (n - 1 - k)
          ((B.set k (B.getD k 0 * ((k : ℚ) / (fl : ℚ)))).getD (n - 1 - k) 0
            * ((k : ℚ) / (fl : ℚ))) from rfl]
      rcases Nat.lt_trichotomy j k with hjk | hjk | hjk
      · -- j < k : untouched by iteration k
        have hne1 : n - 1 - k ≠ j := by omega
        have hne2 : k ≠ j := by omega
        rw [getD_set_ne_q _ hne1, getD_set_ne_q _ hne2]
        rw [ih hk' buf hlen j hj]
        rw [if_pos hjk, if_pos (by omega : j < k + 1)]
        by_cases h3 : n - 1 - j < k
        · rw [if_pos h3, if_pos (by omega : n - 1 - j < k + 1)]
        · rw [if_neg h3, if_neg (by omega : ¬ (n - 1 - j < k + 1))]
      · -- j = k : first update of iteration k
        subst hjk
        have hne1 : n - 1 - j ≠ j := by omega
        rw [getD_set_ne_q _ hne1, getD_set_self_q _ _ (by omega)]
        rw [ih hk' buf hlen j hj]
        have c1 : ¬ (j < j) := by omega
        have c2 : ¬ (n - 1 - j < j) := by omega
        have c3 : j < j + 1 := by omega
        have c4 : ¬ (n - 1 - j < j + 1) := by omega
        rw [if_neg c1, if_neg c2, if_pos c3, if_neg c4]
        ring
      · -- j > k
        rcases eq_or_ne j (n - 1 - k) with hjnk | hjnk
        · -- j = n - 1 - k : second update of iteration k
          have hnk : n - 1 - j = k := by omega
          rw [hjnk, getD_set_self_q _ _ (by simp [List.length_set]; omega)]
          rw [getD_set_ne_q _ (by omega : k ≠ n - 1 - k)]
          rw [ih hk' buf hlen (n - 1 - k) (by omega)]
          have c1 : ¬ (n - 1 - k < k) := by omega
          have c2 : ¬ (n - 1 - (n - 1 - k) < k) := by omega
          have c3 : ¬ (n - 1 - k < k + 1) := by omega
          have c4 : n - 1 - (n - 1 - k) < k + 1 := by omega
          rw [if_neg c1, if_neg c2, if_neg c3, if_pos c4, ← hjnk, hnk]
          ring
        · -- untouched
          have hne1 : n - 1 - k ≠ j := by omega
          have hne2 : k ≠ j := by omega
          rw [getD_set_ne_q _ hne1, getD_set_ne_q _ hne2]
          rw [ih hk' buf hlen j hj]
          rw [if_neg (by omega : ¬ (j < k)), if_neg (by omega : ¬ (j < k + 1))]
          by_cases h3 : n - 1 - j < k
          · rw [if_pos h3, if_pos (by omega : n - 1 - j < k + 1)]
          · rw [if_neg h3, if_neg (by omega : ¬ (n - 1 - j < k + 1))]

theorem fadeLenOf_nonneg_cast (n : ℕ) : ((fadeLenOf n : ℕ) : ℚ) ≤ (0.05 : ℚ) * n := by
  unfold fadeLenOf
  have h0 : (0 : ℚ) ≤ (0.05 : ℚ) * n := by positivity
  have hfl : (0 : ℤ) ≤ ⌊(0.05 : ℚ) * (n : ℚ)⌋ := Int.floor_nonneg.mpr h0
  have hle : ((⌊(0.05 : ℚ) * (n : ℚ)⌋ : ℤ) : ℚ) ≤ (0.05 : ℚ) * n := Int.floor_le _
  rw [show (((⌊(0.05 : ℚ) * (n : ℚ)⌋).toNat : ℕ) : ℚ)
      = ((⌊(0.05 : ℚ) * (n : ℚ)⌋ : ℤ) : ℚ) by
    exact_mod_cast congrArg (fun z : ℤ => (z : ℚ)) (Int.toNat_of_nonneg hfl)]
  exact hle

theorem two_fadeLenOf_le (n : ℕ) : 2 * fadeLenOf n ≤ n := by
  have h := fadeLenOf_nonneg_cast n
  have hq : ((2 * fadeLenOf n : ℕ) : ℚ) ≤ (n : ℕ) := by
    push_cast
    have hn : (0 : ℚ) ≤ (n : ℚ) := by positivity
    nlinarith
  exact_mod_cast hq

theorem generateR2D2Personality_getD (T : Trig) (isIntro : Bool)
    (duration sampleRate : ℚ) (j : ℕ)
    (hj : j < numSamplesOf duration sampleRate) :
    (generateR2D2Personality T isIntro duration sampleRate).getD j 0 =
      rawR2D2Sample T isIntro sampleRate j
        * (if j < fadeLenOf (numSamplesOf duration sampleRate)
            then (j : ℚ) / (fadeLenOf (numSamplesOf duration sampleRate) : ℚ) else 1)
        * (if numSamplesOf duration sampleRate - 1 - j
              < fadeLenOf (numSamplesOf duration sampleRate)
            then ((numSamplesOf duration sampleRate - 1 - j : ℕ) : ℚ)
              / (fadeLenOf (numSamplesOf duration sampleRate) : ℚ) else 1) := by
  unfold generateR2D2Personality applyFade
  rw [foldl_fadeStep_getD (numSamplesOf duration sampleRate)
    (fadeLenOf (numSamplesOf duration sampleRate))
    (two_fadeLenOf_le _) (fadeLenOf (numSamplesOf duration sampleRate)) (le_refl _)
    _ (by simp) j hj]
  rw [getD_range_map _ _ _ hj]

/-- C7: for every index `i < numSamples` with `t = i / sampleRate`, the
pre-fade sample of `generateR2D2Personality` equals
`sin(2π·(baseFreq + modDepth·sin(2π·modRate·t))·t) > threshold ? 1 : -1`
with the non-integrated phase `2π·instantFreq(t)·t`, constants
(baseFreq, modDepth, modRate, threshold) = (800, 400, 10, -0.2) for the intro
and (1200, 300, 5, 0.2) for the outro, and the
linear fade factor `i/fadeLen` is applied over the first and last
`fadeLen = floor(0.05·numSamples)` samples (the last window receiving
`(numSamples-1-i)/fadeLen`). -/
theorem generateR2D2Personality_formula (T : Trig) (isIntro : Bool)
    (duration sampleRate : ℚ) (i : ℕ)
    (hi : i < numSamplesOf duration sampleRate) :
    (generateR2D2Personality T isIntro duration sampleRate).getD i 0 =
      (if T.sin (2 * T.pi
            * ((if isIntro then (800 : ℚ) else 1200)
              + (if isIntro then (400 : ℚ) else 300)
                * T.sin (2 * T.pi * (if isIntro then (10 : ℚ) else 5)
                  * ((i : ℚ) / sampleRate)))
            * ((i : ℚ) / sampleRate))
          > (if isIntro then (-0.2 : ℚ) else 0.2) then 1 else -1)
        * (if i < fadeLenOf (numSamplesOf duration sampleRate)
            then (i : ℚ) / (fadeLenOf (numSamplesOf duration sampleRate) : ℚ) else 1)
        * (if numSamplesOf duration sampleRate - 1 - i
              < fadeLenOf (numSamplesOf duration sampleRate)
            then ((numSamplesOf duration sampleRate - 1 - i : ℕ) : ℚ)
              / (fadeLenOf (numSamplesOf duration sampleRate) : ℚ) else 1) := by
  rw [generateR2D2Personality_getD T isIntro duration sampleRate i hi]
  rfl

theorem generateR2D2Personality_formula_witness :
    5 < numSamplesOf (1/5) 100 ∧
      (generateR2D2Personality trigZero true (1/5) 100).getD 5 0 = 1 := by
  have hn : numSamplesOf (1/5) 100 = 20 := by
    unfold numSamplesOf
    rw [show ⌊(1/5 : ℚ) * 100⌋ = (20 : ℤ) by norm_num]
    rfl
  have hfl : fadeLenOf 20 = 1 := by
    unfold fadeLenOf
    rw [show ⌊(0.05 : ℚ) * ((20 : ℕ) : ℚ)⌋ = (1 : ℤ) by norm_num]
    rfl
  have h5 : 5 < numSamplesOf (1/5) 100 := by rw [hn]; norm_num
  refine ⟨h5, ?_⟩
  rw [generateR2D2Personality_formula trigZero true (1/5) 100 5 h5]
  rw [hn, hfl]
  norm_num [trigZero]

/-- C10: whenever `numSamples = floor(duration · sampleRate) ≥ 20` (so that
`fadeLen = floor(0.05 · numSamples) ≥ 1`), the first and last sample of
`generateR2D2Personality` are exactly 0, because the fade loop multiplies
both boundary samples by `0 / fadeLen = 0`; and inside the fade window the
fade factor `i / fadeLen` never reaches 1, its maximum being
`(fadeLen - 1) / fadeLen`. -/
theorem generateR2D2Personality_fade_boundaries (T : Trig) (isIntro : Bool)
    (duration sampleRate : ℚ)
    (h20 : 20 ≤ numSamplesOf duration sampleRate) :
    (generateR2D2Personality T isIntro duration sampleRate).getD 0 0 = 0 ∧
    (generateR2D2Personality T isIntro duration sampleRate).getD
      (numSamplesOf duration sampleRate - 1) 0 = 0 ∧
    1 ≤ fadeLenOf (numSamplesOf duration sampleRate) ∧
    ∀ i < fadeLenOf (numSamplesOf duration sampleRate),
      (i : ℚ) / (fadeLenOf (numSamplesOf duration sampleRate) : ℚ)
          ≤ ((fadeLenOf (numSamplesOf duration sampleRate) - 1 : ℕ) : ℚ)
            / (fadeLenOf (numSamplesOf duration sampleRate) : ℚ) ∧
        (i : ℚ) / (fadeLenOf (numSamplesOf duration sampleRate) : ℚ) < 1 := by
  set n := numSamplesOf duration sampleRate with hn
  have hfl1 : 1 ≤ fadeLenOf n := by
    unfold fadeLenOf
    have h1 : (1 : ℤ) ≤ ⌊(0.05 : ℚ) * (n : ℚ)⌋ := by
      rw [Int.le_floor]
      push_cast
      have : (20 : ℚ) ≤ (n : ℚ) := by exact_mod_cast h20
      nlinarith
    omega
  have h2fl : 2 * fadeLenOf n ≤ n := two_fadeLenOf_le n
  have hflq : (0 : ℚ) < (fadeLenOf n : ℚ) := by
    exact_mod_cast hfl1
  refine ⟨?_, ?_, hfl1, ?_⟩
  · rw [generateR2D2Personality_getD T isIntro duration sampleRate 0 (by omega)]
    rw [if_pos (by omega : 0 < fadeLenOf n)]
    push_cast
    ring
  · rw [generateR2D2Personality_getD T isIntro duration sampleRate (n - 1) (by omega)]
    rw [if_pos (by omega : n - 1 - (n - 1) < fadeLenOf n)]
    rw [show n - 1 - (n - 1) = 0 from by omega]
    push_cast
    ring
  · intro i hi
    constructor
    · refine (div_le_div_iff_of_pos_right hflq).mpr ?_
      have : i ≤ fadeLenOf n - 1 := by omega
      exact_mod_cast this
    · rw [div_lt_one hflq]
      exact_mod_cast hi

theorem generateR2D2Personality_fade_boundaries_witness :
    20 ≤ numSamplesOf 1 20 ∧
      (generateR2D2Personality trigZero true 1 20).getD 0 0 = 0 ∧
      (generateR2D2Personality trigZero true 1 20).getD (numSamplesOf 1 20 - 1) 0 = 0 := by
  have hn : numSamplesOf 1 20 = 20 := by
    unfold numSamplesOf
    rw [show ⌊(1 : ℚ) * 20⌋ = (20 : ℤ) by norm_num]
    rfl
  have h20 : 20 ≤ numSamplesOf 1 20 := by omega
  have h := generateR2D2Personality_fade_boundaries trigZero true 1 20 h20
  exact ⟨h20, h.1, h.2.1⟩

/-- C5: with `addPersonality = true`, the mixer output length is exactly
`len(intro) + pauseSamples + len(payload) + pauseSamples + len(outro)` with
`pauseSamples = floor(0.1·sampleRate)`, `len(intro) = floor(0.5·sampleRate)`
and `len(outro) = floor(0.3·sampleRate)`; with `addPersonality = false` the
payload is returned unchanged. -/
theorem addDroidPersonality_length_spec (T : Trig) (sampleRate : ℚ)
    (payload : List ℚ) (s : EffectSettings) (hsr : 0 ≤ sampleRate) :
    (s.addPersonality = true →
      (addDroidPersonality T sampleRate payload s).length =
        numSamplesOf 0.5 sampleRate + pauseSamplesOf sampleRate + payload.length
          + pauseSamplesOf sampleRate + numSamplesOf 0.3 sampleRate) ∧
    (s.addPersonality = false →
      addDroidPersonality T sampleRate payload s = payload) := by
  constructor
  · intro hp
    simp only [addDroidPersonality, hp, Bool.not_true, Bool.false_eq_true, if_false]
    simp [List.length_append, generateR2D2Personality_length]
    omega
  · intro hp
    simp [addDroidPersonality, hp]

theorem addDroidPersonality_length_spec_witness :
    (0 : ℚ) ≤ 20 ∧
      (addDroidPersonality trigZero 20 [3, 7] demoSettings).length = 22 ∧
      addDroidPersonality trigZero 20 [3, 7]
        { demoSettings with addPersonality := false } = [3, 7] := by
  have h1 := (addDroidPersonality_length_spec trigZero 20 [3, 7] demoSettings
    (by norm_num)).1 rfl
  have h2 := (addDroidPersonality_length_spec trigZero 20 [3, 7]
    { demoSettings with addPersonality := false } (by norm_num)).2 rfl
  have hn5 : numSamplesOf 0.5 20 = 10 := by
    unfold numSamplesOf
    rw [show ⌊(0.5 : ℚ) * 20⌋ = (10 : ℤ) by norm_num]
    rfl
  have hn3 : numSamplesOf 0.3 20 = 6 := by
    unfold numSamplesOf
    rw [show ⌊(0.3 : ℚ) * 20⌋ = (6 : ℤ) by norm_num]
    rfl
  have hps : pauseSamplesOf 20 = 2 := by
    unfold pauseSamplesOf
    rw [show ⌊(0.1 : ℚ) * 20⌋ = (2 : ℤ) by norm_num]
    rfl
  refine ⟨by norm_num, ?_, h2⟩
  rw [h1, hn5, hn3, hps]
  rfl

/-- C9: with `addPersonality = true`, the mixer copies the payload unchanged
at offset `len(intro) + pauseSamples`, the two pause regions are exactly
zero, and the intro and outro regions are the generator outputs multiplied
once more by `volume` (double volume application relative to the payload
path, which is copied without rescaling). -/
theorem addDroidPersonality_regions (T : Trig) (sampleRate : ℚ)
    (payload : List ℚ) (s : EffectSettings) (hp : s.addPersonality = true) :
    (∀ k < (generateR2D2Personality T true 0.5 sampleRate).length,
      (addDroidPersonality T sampleRate payload s).getD k 0 =
        (generateR2D2Personality T true 0.5 sampleRate).getD k 0 * s.volume) ∧
    (∀ j < pauseSamplesOf sampleRate,
      (addDroidPersonality T sampleRate payload s).getD
        ((generateR2D2Personality T true 0.5 sampleRate).length + j) 0 = 0) ∧
    (∀ i < payload.length,
      (addDroidPersonality T sampleRate payload s).getD
        ((generateR2D2Personality T true 0.5 sampleRate).length
          + pauseSamplesOf sampleRate + i) 0 = payload.getD i 0) ∧
    (∀ j < pauseSamplesOf sampleRate,
      (addDroidPersonality T sampleRate payload s).getD
        ((generateR2D2Personality T true 0.5 sampleRate).length
          + pauseSamplesOf sampleRate + payload.length + j) 0 = 0) ∧
    (∀ k < (generateR2D2Personality T false 0.3 sampleRate).length,
      (addDroidPersonality T sampleRate payload s).getD
        ((generateR2D2Personality T true 0.5 sampleRate).length
          + pauseSamplesOf sampleRate + payload.length
          + pauseSamplesOf sampleRate + k) 0 =
        (generateR2D2Personality T false 0.3 sampleRate).getD k 0 * s.volume) := by
  have hdef : addDroidPersonality T sampleRate payload s =
      (generateR2D2Personality T true 0.5 sampleRate).map (fun x => x * s.volume)
        ++ List.replicate (pauseSamplesOf sampleRate) 0
        ++ payload
        ++ List.replicate (pauseSamplesOf sampleRate) 0
        ++ (generateR2D2Personality T false 0.3 sampleRate).map
            (fun x => x * s.volume) := by
    simp only [addDroidPersonality, hp, Bool.not_true, Bool.false_eq_true, if_false]
  set intro := generateR2D2Personality T true 0.5 sampleRate with hintro
  set outro := generateR2D2Personality T false 0.3 sampleRate with houtro
  set pz := pauseSamplesOf sampleRate with hpz
  rw [hdef]
  -- reassociate the appends to peel regions from the left
  rw [List.append_assoc, List.append_assoc, List.append_assoc]
  refine ⟨?_, ?_, ?_, ?_, ?_⟩
  · intro k hk
    rw [getD_append_lt _ _ k (by simpa using hk)]
    exact getD_map_mul intro s.volume k hk
  · intro j hj
    rw [getD_append_ge _ _ _ (by simp)]
    simp only [List.length_map]
    rw [show intro.length + j - intro.length = j from by omega]
    rw [getD_append_lt _ _ j (by simpa using hj)]
    exact getD_replicate_zero _ _
  · intro i hi
    rw [getD_append_ge _ _ _ (by simp; omega)]
    simp only [List.length_map]
    rw [show intro.length + pz + i - intro.length = pz + i from by omega]
    rw [getD_append_ge _ _ _ (by simp)]
    simp only [List.length_replicate]
    rw [show pz + i - pz = i from by omega]
    rw [getD_append_lt _ _ i hi]
  · intro j hj
    rw [getD_append_ge _ _ _ (by simp; omega)]
    simp only [List.length_map]
    rw [show intro.length + pz + payload.length + j - intro.length
      = pz + payload.length + j from by omega]
    rw [getD_append_ge _ _ _ (by simp only [List.length_replicate]; omega)]
    simp only [List.length_replicate]
    rw [show pz + payload.length + j - pz = payload.length + j from by omega]
    rw [getD_append_ge _ _ _ (by omega)]
    rw [show payload.length + j - payload.length = j from by omega]
    rw [getD_append_lt _ _ j (by simpa using hj)]
    exact getD_replicate_zero _ _
  · intro k hk
    rw [getD_append_ge _ _ _ (by simp; omega)]
    simp only [List.length_map]
    rw [show intro.length + pz + payload.length + pz + k - intro.length
      = pz + payload.length + pz + k from by omega]
    rw [getD_append_ge _ _ _ (by simp only [List.length_replicate]; omega)]
    simp only [List.length_replicate]
    rw [show pz + payload.length + pz + k - pz = payload.length + pz + k from by omega]
    rw [getD_append_ge _ _ _ (by omega)]
    rw [show payload.length + pz + k - payload.length = pz + k from by omega]
    rw [getD_append_ge _ _ _ (by simp)]
    simp only [List.length_replicate]
    rw [show pz + k - pz = k from by omega]
    exact getD_map_mul outro s.volume k hk

theorem addDroidPersonality_regions_witness :
    demoSettings.addPersonality = true ∧
    (addDroidPersonality trigZero 20 [3, 7] demoSettings).getD 12 0 = 3 ∧
    (addDroidPersonality trigZero 20 [3, 7] demoSettings).getD 10 0 = 0 := by
  have hlen : (generateR2D2Personality trigZero true 0.5 20).length = 10 := by
    rw [generateR2D2Personality_length]
    unfold numSamplesOf
    rw [show ⌊(0.5 : ℚ) * 20⌋ = (10 : ℤ) by norm_num]
    rfl
  have hps : pauseSamplesOf 20 = 2 := by
    unfold pauseSamplesOf
    rw [show ⌊(0.1 : ℚ) * 20⌋ = (2 : ℤ) by norm_num]
    rfl
  have h := addDroidPersonality_regions trigZero 20 [3, 7] demoSettings rfl
  have hpay := h.2.2.1 0 (by norm_num)
  have hpause := h.2.1 0 (by rw [hps]; norm_num)
  rw [hlen, hps] at hpay
  rw [hlen] at hpause
  refine ⟨rfl, ?_, ?_⟩
  · simpa using hpay
  · simpa using hpause

/-! ### The max-abs scan of applyDroidEffects -/

theorem foldl_absmax_init_le (l : List ℚ) :
    ∀ m : ℚ, m ≤ l.foldl (fun m x => if |x| > m then |x| else m) m := by
  induction l with
  | nil => intro m; exact le_refl m
  | cons x l ih =>
      intro m
      rw [List.foldl_cons]
      refine le_trans ?_ (ih (if |x| > m then |x| else m))
      by_cases h : |x| > m
      · rw [if_pos h]; exact le_of_lt h
      · rw [if_neg h]

theorem foldl_absmax_mem_le (l : List ℚ) :
    ∀ m : ℚ, ∀ x ∈ l, |x| ≤ l.foldl (fun m x => if |x| > m then |x| else m) m := by
  induction l with
  | nil => intro m x hx; cases hx
  | cons y l ih =>
      intro m x hx
      rw [List.foldl_cons]
      rcases List.mem_cons.mp hx with hxy | hxl
      · subst hxy
        refine le_trans ?_ (foldl_absmax_init_le l (if |x| > m then |x| else m))
        by_cases h : |x| > m
        · rw [if_pos h]
        · rw [if_neg h]; exact le_of_not_lt h
      · exact ih _ x hxl

theorem foldl_absmax_zero_nonneg (l : List ℚ) :
    0 ≤ l.foldl (fun m x => if |x| > m then |x| else m) 0 :=
  foldl_absmax_init_le l 0

theorem foldl_absmax_replicate_zero (n : ℕ) :
    (List.replicate n (0 : ℚ)).foldl (fun m x => if |x| > m then |x| else m) 0 = 0 := by
  induction n with
  | zero => rfl
  | succ k ih =>
      rw [List.replicate_succ, List.foldl_cons]
      simpa using ih

/-- C3: for every settings with `dutyCycle > 0`, every sample rate and every
buffer length, `applyDroidEffects` maps the all-zero buffer to the all-zero
buffer of the same length (the near-zero guard substitutes `maxAmp = 1.0`). -/
theorem applyDroidEffects_zero_input (T : Trig) (sampleRate : ℚ)
    (s : EffectSettings) (n : ℕ) (hd : 0 < s.dutyCycle) :
    applyDroidEffects T sampleRate (List.replicate n 0) s = List.replicate n 0 := by
  have hneg : ¬ ((0 : ℚ) < -s.dutyCycle) := not_lt.mpr (by linarith)
  have hstep : ∀ L i : ℕ, droidSampleStep T sampleRate L s i 0 = 0 := by
    intro L i
    simp [droidSampleStep, hneg]
  have hmap : (List.replicate n (0 : ℚ)).mapIdx (fun i x =>
      droidSampleStep T sampleRate (List.replicate n (0 : ℚ)).length s i x)
      = List.replicate n 0 := by
    rw [List.mapIdx_eq_iff]
    intro i
    by_cases h : i < n
    · simp [List.getElem?_replicate, h, hstep]

    · simp [List.getElem?_replicate, h]
  simp only [applyDroidEffects, hmap, foldl_absmax_replicate_zero,
    List.map_replicate, zero_div, zero_mul]

theorem applyDroidEffects_zero_input_witness :
    0 < demoSettings.dutyCycle ∧
      applyDroidEffects trigZero 10 (List.replicate 3 0) demoSettings =
        List.replicate 3 0 :=
  ⟨by norm_num [demoSettings],
    applyDroidEffects_zero_input trigZero 10 demoSettings 3
      (by norm_num [demoSettings])⟩

/-- Helper: the length of the output of `applyDroidEffects` always equals
the length of its input buffer. -/
theorem applyDroidEffects_length (T : Trig) (sampleRate : ℚ) (buffer : List ℚ)
    (s : EffectSettings) :
    (applyDroidEffects T sampleRate buffer s).length = buffer.length := by
  simp [applyDroidEffects]

/-- C8: for every non-empty, not-all-zero input buffer and volume in [0, 1],
every output sample of `applyDroidEffects` has absolute value at most the
volume: the post-pass divides by the processed peak (or by 1.0 when the peak
is at most 1e-4) and multiplies by the volume. -/
theorem applyDroidEffects_peak_le_volume (T : Trig) (sampleRate : ℚ)
    (buffer : List ℚ) (s : EffectSettings) (hne : buffer ≠ [])
    (hnz : ∃ x ∈ buffer, x ≠ 0) (h0 : 0 ≤ s.volume) (h1 : s.volume ≤ 1) :
    ∀ y ∈ applyDroidEffects T sampleRate buffer s, |y| ≤ s.volume := by
  intro y hy
  unfold applyDroidEffects at hy
  rw [List.mem_map] at hy
  obtain ⟨x, hx, rfl⟩ := hy
  set P := buffer.mapIdx (fun i x =>
    droidSampleStep T sampleRate buffer.length s i x) with hP
  set A := P.foldl (fun m x => if |x| > m then |x| else m) 0 with hA
  have hA0 : (0 : ℚ) ≤ A := foldl_absmax_zero_nonneg P
  have hxA : |x| ≤ A := foldl_absmax_mem_le P 0 x hx
  by_cases hguard : A ≤ 0.0001
  · rw [if_pos hguard]
    have hx1 : |x| ≤ 1 := le_trans hxA (le_trans hguard (by norm_num))
    calc |x / 1.0 * s.volume| = |x| * s.volume := by
          rw [abs_mul, abs_of_nonneg h0]
          norm_num
      _ ≤ 1 * s.volume := mul_le_mul_of_nonneg_right hx1 h0
      _ = s.volume := one_mul _
  · rw [if_neg hguard]
    have hApos : (0 : ℚ) < A := lt_of_lt_of_le (by norm_num) (not_le.mp hguard).le
    calc |x / A * s.volume| = |x| / A * s.volume := by
          rw [abs_mul, abs_div, abs_of_nonneg h0, abs_of_pos hApos]
      _ ≤ 1 * s.volume := by
          refine mul_le_mul_of_nonneg_right ?_ h0
          exact (div_le_one hApos).mpr hxA
      _ = s.volume := one_mul _

theorem applyDroidEffects_peak_le_volume_witness :
    |(applyDroidEffects trigZero 10 [1/2, 1/4] demoSettings).getD 0 0|
      ≤ demoSettings.volume := by
  have hlen : (applyDroidEffects trigZero 10 [1/2, 1/4] demoSettings).length = 2 :=
    applyDroidEffects_length trigZero 10 [1/2, 1/4] demoSettings
  have hmem : (applyDroidEffects trigZero 10 [1/2, 1/4] demoSettings).getD 0 0
      ∈ applyDroidEffects trigZero 10 [1/2, 1/4] demoSettings := by
    have h0 : 0 < (applyDroidEffects trigZero 10 [1/2, 1/4] demoSettings).length := by
      omega
    rw [List.getD_eq_getElem?_getD, List.getElem?_eq_getElem h0]
    exact List.getElem_mem h0
  exact applyDroidEffects_peak_le_volume trigZero 10 [1/2, 1/4] demoSettings
    (by simp) ⟨1/2, by norm_num, by norm_num⟩
    (by norm_num [demoSettings]) (by norm_num [demoSettings]) _ hmem

/-- C6: the audio path is deterministic — it is a pure function of the trig
oracle, the sample rate, the input buffer and the settings, so two runs on
identical inputs coincide definitionally — and the effect kind `random`
applies no effect-specific multiplier: both `applyDroidEffects` and
`addDroidPersonality` produce output identical to `normal` on every input. -/
theorem droid_pipeline_deterministic_random_eq_normal (T : Trig)
    (sampleRate : ℚ) (buffer : List ℚ) (s : EffectSettings) :
    applyDroidEffects T sampleRate buffer s = applyDroidEffects T sampleRate buffer s ∧
    applyDroidEffects T sampleRate buffer { s with effect := .random } =
      applyDroidEffects T sampleRate buffer { s with effect := .normal } ∧
    addDroidPersonality T sampleRate buffer { s with effect := .random } =
      addDroidPersonality T sampleRate buffer { s with effect := .normal } :=
  ⟨rfl, rfl, rfl⟩

/-- C1 (amended): the code performs no configuration validation — there is no
`InvalidConfiguration` error anywhere in the pipeline.  Even for
`sampleRate ≤ 0` or `dutyCycle ≤ 0`, `applyDroidEffects` runs the per-sample
numeric work and produces a processed buffer of the same length as its input,
rather than failing fast. -/
theorem applyDroidEffects_no_validation (T : Trig) (sampleRate : ℚ)
    (buffer : List ℚ) (s : EffectSettings)
    (h : sampleRate ≤ 0 ∨ s.dutyCycle ≤ 0) :
    (applyDroidEffects T sampleRate buffer s).length = buffer.length :=
  applyDroidEffects_length T sampleRate buffer s

theorem applyDroidEffects_no_validation_witness :
    ((44100 : ℚ) ≤ 0 ∨ zeroDutySettings.dutyCycle ≤ 0) ∧
      (applyDroidEffects trigZero 44100 [1/2, 1/3] zeroDutySettings).length = 2 := by
  have hd : zeroDutySettings.dutyCycle ≤ 0 := by norm_num [zeroDutySettings]
  have h := applyDroidEffects_no_validation trigZero 44100 [1/2, 1/3]
    zeroDutySettings (Or.inr hd)
  exact ⟨Or.inr hd, by simpa using h⟩

/-- C1 (counterexample to the claim as stated): with `dutyCycle = 0` the
pipeline does not fail fast with `InvalidConfiguration`; it performs the
numeric work and produces a processed buffer — here the concrete output
`[1/2]` for the input `[1/2]`. -/
theorem applyDroidEffects_zeroDuty_counterexample :
    zeroDutySettings.dutyCycle ≤ 0 ∧
      applyDroidEffects trigZero 44100 [1/2] zeroDutySettings = [1/2] := by
  constructor
  · norm_num [zeroDutySettings]
  · norm_num [applyDroidEffects, droidSampleStep, effectLfo, trigZero,
      zeroDutySettings, List.mapIdx_singleton]
    rw [show |(9 : ℚ)/10| = 9/10 from abs_of_pos (by norm_num)]
    norm_num

/-- C2: for N = 1000 int16 samples at sampleRate = 44100, the WAV header has
ChunkSize bytes[4:8] = 2032 (the formula 32 + N*2, not the canonical
36 + N*2), channels bytes[22:24] = 1, sample rate bytes[24:28] = 44100 and
data chunk size bytes[40:44] = 2000, and the whole 44-byte header equals the
table of section 4.4 of the specification field for field. -/
theorem createWavHeader_spec_bytes :
    leU32At (createWavHeader 1000 1 44100 16) 4 = 2032 ∧
    leU16At (createWavHeader 1000 1 44100 16) 22 = 1 ∧
    leU32At (createWavHeader 1000 1 44100 16) 24 = 44100 ∧
    leU32At (createWavHeader 1000 1 44100 16) 40 = 2000 ∧
    (createWavHeader 1000 1 44100 16).length = 44 ∧
    createWavHeader 1000 1 44100 16 = specWavHeaderTable 1000 44100 := by
  refine ⟨?_, ?_, ?_, ?_, ?_, ?_⟩ <;> decide

/-- C4: the save-as-WAV quantization computes `clamp(x, -1, 1) * 32767`
truncated toward zero (the Int16Array wrap never fires because the clamped
product stays within [-32767, 32767]); in particular 1.0 maps to 32767,
-1.0 maps to -32767, and the out-of-range 1.5 is clamped first and maps
to 32767. -/
theorem saveAsWav_quantization :
    (∀ x : ℚ, quantizeSample x = truncTowardZero (min 1 (max (-1) x) * 32767)) ∧
    quantizeSample 1 = 32767 ∧
    quantizeSample (-1) = -32767 ∧
    quantizeSample (3/2) = 32767 := by
  have hgen : ∀ x : ℚ, quantizeSample x =
      truncTowardZero (min 1 (max (-1) x) * 32767) := by
    intro x
    unfold quantizeSample toInt16
    set q : ℚ := min 1 (max (-1) x) * 32767 with hq
    have hqub : q ≤ 32767 := by
      have : min 1 (max (-1) x) ≤ 1 := min_le_left _ _
      nlinarith
    have hqlb : (-32767 : ℚ) ≤ q := by
      have h1 : (-1 : ℚ) ≤ max (-1) x := le_max_left _ _
      have h2 : (-1 : ℚ) ≤ min 1 (max (-1) x) := le_min (by norm_num) h1
      nlinarith
    have hzb : truncTowardZero q ≤ 32767 ∧ (-32767 : ℤ) ≤ truncTowardZero q := by
      unfold truncTowardZero
      by_cases h : (0 : ℚ) ≤ q
      · rw [if_pos h]
        constructor
        · have := Int.floor_le_floor hqub
          simpa using this
        · have h0 : (0 : ℤ) ≤ ⌊q⌋ := Int.floor_nonneg.mpr h
          omega
      · rw [if_neg h]
        constructor
        · have h0 : ⌈q⌉ ≤ 0 := Int.ceil_le.mpr (by push_cast; exact le_of_not_le h)
          omega
        · have := Int.ceil_le_ceil hqlb
          rw [show ((-32767 : ℚ)) = ((-32767 : ℤ) : ℚ) by norm_num] at this
          rw [Int.ceil_intCast] at this
          exact this
    obtain ⟨hub, hlb⟩ := hzb
    have hmod : (truncTowardZero q + 32768) % 65536 = truncTowardZero q + 32768 :=
      Int.emod_eq_of_lt (by omega) (by omega)
    rw [hmod]
    ring
  refine ⟨hgen, ?_, ?_, ?_⟩
  · rw [hgen 1]
    rw [show min 1 (max (-1) (1 : ℚ)) * 32767 = 32767 by norm_num]
    unfold truncTowardZero
    rw [if_pos (by norm_num : (0 : ℚ) ≤ 32767)]
    rw [show ((32767 : ℚ)) = ((32767 : ℤ) : ℚ) by norm_num, Int.floor_intCast]
  · rw [hgen (-1)]
    rw [show min 1 (max (-1) ((-1) : ℚ)) * 32767 = -32767 by norm_num]
    unfold truncTowardZero
    rw [if_neg (by norm_num : ¬ ((0 : ℚ) ≤ -32767))]
    rw [show ((-32767 : ℚ)) = ((-32767 : ℤ) : ℚ) by norm_num, Int.ceil_intCast]
  · rw [hgen (3/2)]
    rw [show min 1 (max (-1) ((3 : ℚ)/2)) * 32767 = 32767 by norm_num]
    unfold truncTowardZero
    rw [if_pos (by norm_num : (0 : ℚ) ≤ 32767)]
    rw [show ((32767 : ℚ)) = ((32767 : ℤ) : ℚ) by norm_num, Int.floor_intCast]
